import Mathlib

/-!
Verification of the JATS document-to-section-map extractor of
`article_fetching/utils/get_text/my_custom.py`.

The XML element model mirrors Python's `xml.etree.ElementTree`: an element
has a tag, an optional text (the text between the start tag and the first
child), ordered children, and an optional tail (the text after the
element's end tag, stored on the element itself as in ElementTree).
-/

set_option maxRecDepth 4000

inductive Elem where
  | mk : String → Option String → List Elem → Option String → Elem

def Elem.tag : Elem → String
  | .mk t _ _ _ => t

def Elem.text : Elem → Option String
  | .mk _ t _ _ => t

def Elem.children : Elem → List Elem
  | .mk _ _ c _ => c

def Elem.tail : Elem → Option String
  | .mk _ _ _ t => t

/-! ### Whitespace utilities

Python's `str.split()` splits on runs of whitespace and drops empty pieces;
`" ".join(...)` interleaves single spaces.  `_txt` composes them. -/

def isPySpace (c : Char) : Bool :=
  c = ' ' || c = '\t' || c = '\n' || c = '\r' || c = '\x0b' || c = '\x0c'

/-- Python `s.endswith(suf)`. -/
def pyEndsWith (s suf : String) : Bool :=
  suf.toList.isSuffixOf s.toList

def dropLeadingWs : List Char → List Char
  | [] => []
  | c :: rest => if isPySpace c then dropLeadingWs rest else c :: rest

/-- Python `s.strip()`. -/
def pyStrip (s : String) : String :=
  String.mk ((dropLeadingWs (dropLeadingWs s.toList).reverse).reverse)

/-- Split a character list on runs of `isPySpace`, dropping empty pieces;
`acc` is the reversed word in progress (Python `str.split()`). -/
def splitWsAux : List Char → List Char → List (List Char)
  | [], acc => if acc.isEmpty then [] else [acc.reverse]
  | c :: rest, acc =>
    if isPySpace c then
      (if acc.isEmpty then splitWsAux rest [] else acc.reverse :: splitWsAux rest [])
    else
      splitWsAux rest (c :: acc)

def pySplitWs (s : String) : List String :=
  (splitWsAux s.toList []).map (fun l => String.mk l)

/-- Python `" ".join(parts)`. -/
def joinSpace : List String → String
  | [] => ""
  | [s] => s
  | s :: rest => s ++ " " ++ joinSpace rest

/-- Python `" ".join(s.split())`. -/
def normalizeWs (s : String) : String :=
  joinSpace (pySplitWs s)

/-! ### Text flattening: `_txt` -/

/-- Python truthiness `if t:` on an optional string: contribute the string
as a part only when it is present and non-empty. -/
def optPart : Option String → List String
  | none => []
  | some t => if t = "" then [] else [t]

mutual

/-- Parts collected by `_txt`'s inner `walk`: the node's text, then for each
child its parts followed by the child's tail. -/
def txtParts : Elem → List String
  | .mk _ text children _ => optPart text ++ txtPartsList children

def txtPartsList : List Elem → List String
  | [] => []
  | c :: rest => txtParts c ++ optPart c.tail ++ txtPartsList rest

end

/-- `_txt` applied to a present element. -/
def txtElem (el : Elem) : String :=
  normalizeWs (joinSpace (txtParts el))

/-- `_txt(el)`: flatten text of an element and its descendants, collapsing
whitespace; a missing element flattens to the empty string. -/
def txt : Option Elem → String
  | none => ""
  | some el => txtElem el

/-! ### Tree navigation -/

/-- `_is(el, name)`: suffix match on the tag. -/
def tagIs (el : Elem) (name : String) : Bool :=
  pyEndsWith el.tag name

/-- `el.find("./t")`: first direct child whose tag is exactly `t`. -/
def childFind (el : Elem) (t : String) : Option Elem :=
  el.children.find? (fun c => c.tag = t)

/-- `el.findall("./t")`: all direct children whose tag is exactly `t`. -/
def childrenTagged (el : Elem) (t : String) : List Elem :=
  el.children.filter (fun c => c.tag = t)

def concatMap (f : α → List β) : List α → List β
  | [] => []
  | x :: rest => f x ++ concatMap f rest

/-- One step of an ElementTree simple path: all `t`-tagged children of all
elements of `els`, in document order. -/
def selectChildren (els : List Elem) (t : String) : List Elem :=
  concatMap (fun e => childrenTagged e t) els

/-- `el.find("./a/b/...")`: first element, in document order, reached from
`el` by the chain of child tags. -/
def findPath (el : Elem) (path : List String) : Option Elem :=
  (path.foldl selectChildren [el]).head?

mutual

/-- First element with tag exactly `t` in a subtree, in document
(preorder) order. -/
def findDescElem (t : String) : Elem → Option Elem
  | .mk tg tx ch tl =>
    if tg = t then some (.mk tg tx ch tl) else findDescList t ch

/-- `root.find(".//t")` over a list of subtrees: first element with tag
exactly `t` among the subtrees, in document (preorder) order. -/
def findDescList (t : String) : List Elem → Option Elem
  | [] => none
  | c :: rest =>
    match findDescElem t c with
    | some r => some r
    | none => findDescList t rest

end

/-- `_first_article(root)`: the root itself when its tag ends with
"article", else the first descendant tagged exactly "article". -/
def firstArticle (root : Elem) : Option Elem :=
  if tagIs root "article" then some root
  else findDescList "article" root.children

mutual

/-- Document-order (preorder) listing of an element and its descendants. -/
def preorder : Elem → List Elem
  | .mk tg tx ch tl => .mk tg tx ch tl :: preorderList ch

def preorderList : List Elem → List Elem
  | [] => []
  | c :: rest => preorder c ++ preorderList rest

end

/-! ### The section map (Python insertion-ordered dict of lists) -/

/-- Insertion-ordered map from section key to paragraph list. -/
abbrev Store := List (String × List String)

def lookup (s : Store) (k : String) : Option (List String) :=
  match List.find? (fun p => p.1 = k) s with
  | some p => some p.2
  | none => none

/-- `store.setdefault(k, []).extend(vs)`: extend the existing entry in
place, or append a new entry at the end. -/
def storeExtend (s : Store) (k : String) (vs : List String) : Store :=
  if List.any s (fun p => p.1 = k) then
    List.map (fun p => if p.1 = k then (p.1, p.2 ++ vs) else p) s
  else
    s ++ [(k, vs)]

/-- `store[k] = v`: overwrite the existing entry in place, or append a new
entry at the end. -/
def storeSet (s : Store) (k : String) (v : List String) : Store :=
  if List.any s (fun p => p.1 = k) then
    List.map (fun p => if p.1 = k then (p.1, v) else p) s
  else
    s ++ [(k, v)]

/-! ### `_collect_level_paragraphs` -/

def blockTags : List String :=
  ["p", "boxed-text", "disp-quote", "def-list", "list",
   "supplementary-material", "table-wrap-foot", "statement", "caption"]

/-- `_collect_level_paragraphs(container)`: paragraph-like text at the
current level, excluding nested sections, titles and labels.  The
recognised-block branch and the permissive fallback do the same thing,
as in the source. -/
def collect_level_paragraphs (container : Elem) : List String :=
  container.children.foldl (fun out node =>
    if tagIs node "title" || tagIs node "label" || tagIs node "sec" then out
    else if blockTags.any (fun t => tagIs node t) then
      (let t := pyStrip (txtElem node)
       if t = "" then out else out ++ [t])
    else
      (let t := pyStrip (txtElem node)
       if t = "" then out else out ++ [t])) []

/-! ### `_parse_body_into_map` -/

/-- The preface scan of `_parse_body_into_map`: flatten children until the
first child whose tag ends with "sec", skipping titles, keeping non-empty
text. -/
def prefaceScan : List Elem → List String
  | [] => []
  | node :: rest =>
    if tagIs node "sec" then []
    else if tagIs node "title" then prefaceScan rest
    else
      let t := pyStrip (txtElem node)
      if t = "" then prefaceScan rest else t :: prefaceScan rest

/-- Section key derivation in `walk_sec`. -/
def secTitle (sec : Elem) : String :=
  let t := txt (childFind sec "title")
  if t = "" then "Untitled Section" else t

mutual

/-- `walk_sec(sec)`: store the section's own-level paragraphs under its
title key, then recurse into children whose tag ends with "sec". -/
def walkSec (store : Store) : Elem → Store
  | .mk tg tx ch tl =>
    let sec := Elem.mk tg tx ch tl
    let paras := collect_level_paragraphs sec
    let store1 := if paras.isEmpty then store else storeExtend store (secTitle sec) paras
    walkSecList store1 ch

def walkSecList (store : Store) : List Elem → Store
  | [] => store
  | c :: rest => walkSecList (if tagIs c "sec" then walkSec store c else store) rest

end

/-- Body of `_parse_body_into_map` once the body element is found. -/
def parseBodyAux (body : Elem) (store : Store) : Store :=
  let preface := prefaceScan body.children
  let store1 := if preface.isEmpty then store
                else storeExtend store "Body (untitled)" preface
  (childrenTagged body "sec").foldl walkSec store1

/-- `_parse_body_into_map(article, store)`. -/
def parse_body_into_map (article : Elem) (store : Store) : Store :=
  match childFind article "body" with
  | none => store
  | some body => parseBodyAux body store

/-! ### `_parse_abstract_into_map` -/

/-- Key chosen for the `i`-th (1-based) abstract-like element among
`numNodes` of them. -/
def abstractKey (numNodes i : Nat) (absEl : Elem) : String :=
  let titleText := txt (childFind absEl "title")
  if numNodes = 1 && titleText = "" then "Abstract"
  else if titleText = "" then "Abstract " ++ toString i
  else titleText

/-- Loop body of `_parse_abstract_into_map` for one abstract-like element:
own-level paragraphs under its key, then each directly nested section
under its own key. -/
def parseAbstractNode (numNodes : Nat) (store : Store) (ie : Nat × Elem) : Store :=
  let key := abstractKey numNodes ie.1 ie.2
  let paras := collect_level_paragraphs ie.2
  let store1 := if paras.isEmpty then store else storeExtend store key paras
  (ie.2.children.filter (fun c => tagIs c "sec")).foldl (fun st s =>
    let t0 := txt (childFind s "title")
    let stitle := if t0 = "" then key ++ " subsection" else t0
    let sParas := collect_level_paragraphs s
    if sParas.isEmpty then st else storeExtend st stitle sParas) store1

/-- Python `enumerate(l, n)`. -/
def pyEnumFrom (n : Nat) : List α → List (Nat × α)
  | [] => []
  | x :: rest => (n, x) :: pyEnumFrom (n + 1) rest

/-- Body of `_parse_abstract_into_map` once the metadata container is
found: abstracts first, then trans-abstracts, each processed in order with
its 1-based index. -/
def parseAbstractMeta (meta : Elem) (store : Store) : Store :=
  let absNodes := childrenTagged meta "abstract" ++ childrenTagged meta "trans-abstract"
  if absNodes.isEmpty then store
  else (pyEnumFrom 1 absNodes).foldl (parseAbstractNode absNodes.length) store

/-- `_parse_abstract_into_map(article, store)`. -/
def parse_abstract_into_map (article : Elem) (store : Store) : Store :=
  match findPath article ["front", "article-meta"] with
  | none => store
  | some meta => parseAbstractMeta meta store

/-! ### `_jats_to_section_paragraph_map` (tree part) -/

/-- The article-title element: primary path, falling back to the
translated-title path. -/
def titleElOf (article : Elem) : Option Elem :=
  match findPath article ["front", "article-meta", "title-group", "article-title"] with
  | some e => some e
  | none =>
    findPath article
      ["front", "article-meta", "title-group", "trans-title-group", "trans-title"]

/-- The extractor applied to an already-parsed tree: title, then
abstracts, then body sections. -/
def jatsFromTree (root : Elem) : Store :=
  match firstArticle root with
  | none => []
  | some article =>
    let title := txt (titleElOf article)
    let out1 := if title = "" then [] else storeSet [] "Title" [title]
    let out2 := parse_abstract_into_map article out1
    parse_body_into_map article out2

/-! ### XML parsing: model of `xml.etree.ElementTree.fromstring`

A strict recursive-descent parser for element-only XML (tags, nested
elements, character data).  Malformed input — truncated input, a dangling
open tag, a mismatched close tag, junk after the document element —
yields an error, as `ET.fromstring` raises `ParseError`. -/

def isNameChar (c : Char) : Bool :=
  c.isAlphanum || c = '-' || c = '_' || c = ':' || c = '.'

/-- Longest prefix of name characters, and the rest. -/
def takeName : List Char → List Char × List Char
  | [] => ([], [])
  | c :: rest =>
    if isNameChar c then
      let (n, r) := takeName rest
      (c :: n, r)
    else ([], c :: rest)

/-- Character data up to the next markup character, and the rest. -/
def takeText : List Char → List Char × List Char
  | [] => ([], [])
  | c :: rest =>
    if c = '<' then ([], c :: rest)
    else
      let (t, r) := takeText rest
      (c :: t, r)

/-- Consume the remainder of a start tag after the name (attributes are
accepted and discarded); `some (selfClosing, rest)` on success. -/
def skipAttrs : List Char → Option (Bool × List Char)
  | [] => none
  | '>' :: rest => some (false, rest)
  | '/' :: '>' :: rest => some (true, rest)
  | _ :: rest => skipAttrs rest

/-- Character data becomes an element's text/tail only when non-empty. -/
def mkTextOpt (t : List Char) : Option String :=
  if t.isEmpty then none else some (String.mk t)

mutual

/-- Parse one element starting at a literal opening angle bracket; `fuel`
bounds the recursion. -/
def parseElem : Nat → List Char → Option (Elem × List Char)
  | 0, _ => none
  | Nat.succ f, cs =>
    match cs with
    | '<' :: rest =>
      let (name, r1) := takeName rest
      if name.isEmpty then none
      else
        match skipAttrs r1 with
        | none => none
        | some (true, r2) => some (Elem.mk (String.mk name) none [] none, r2)
        | some (false, r2) =>
          match parseNodes f name r2 with
          | none => none
          | some (text, children, r3) =>
            some (Elem.mk (String.mk name) text children none, r3)
    | _ => none

/-- Parse element content up to the matching close tag for `expected`:
the text at the current position, the remaining children (each carrying
its tail), and the rest of the input after the close tag. -/
def parseNodes : Nat → List Char → List Char → Option (Option String × List Elem × List Char)
  | 0, _, _ => none
  | Nat.succ f, expected, cs =>
    let (t, r) := takeText cs
    match r with
    | '<' :: '/' :: r2 =>
      let (n2, r3) := takeName r2
      match dropLeadingWs r3 with
      | '>' :: r4 => if n2 = expected then some (mkTextOpt t, [], r4) else none
      | _ => none
    | '<' :: _ =>
      match parseElem f r with
      | none => none
      | some (child, r2) =>
        match parseNodes f expected r2 with
        | none => none
        | some (tl, sibs, r3) =>
          match child with
          | .mk tg tx ch _ => some (mkTextOpt t, Elem.mk tg tx ch tl :: sibs, r3)
    | _ => none

end

/-- Skip an optional leading XML declaration or processing instruction. -/
def dropDecl : List Char → List Char
  | '<' :: '?' :: rest => dropDeclAux rest
  | cs => cs
where
  dropDeclAux : List Char → List Char
    | [] => []
    | '?' :: '>' :: rest => rest
    | _ :: rest => dropDeclAux rest

/-- Model of `ET.fromstring`: parse a complete document into its root
element, or fail with a parse error. -/
def fromstring (raw : String) : Except String Elem :=
  let cs := dropLeadingWs (dropDecl (dropLeadingWs raw.toList))
  match parseElem (raw.length + 1) cs with
  | none => Except.error "ParseError: malformed XML"
  | some (el, rest) =>
    if (dropLeadingWs rest).isEmpty then Except.ok el
    else Except.error "ParseError: junk after document element"

/-- `_jats_to_section_paragraph_map(raw_xml)`: parse, then extract; a
parse failure propagates to the caller. -/
def jats_to_section_paragraph_map (raw : String) : Except String Store :=
  (fromstring raw).map jatsFromTree

/-- Number of entries of the store carrying a given key. -/
def countKey (s : Store) (k : String) : Nat :=
  (s.filter (fun p => p.1 = k)).length

/-- What `_collect_level_paragraphs` does with one child. -/
def pickPara (node : Elem) : Option String :=
  if tagIs node "title" || tagIs node "label" || tagIs node "sec" then none
  else
    let t := pyStrip (txtElem node)
    if t = "" then none else some t

/-! ### Store lemmas -/

theorem lookup_cons (p : String × List String) (s : Store) (k : String) :
    lookup (p :: s) k = if p.1 = k then some p.2 else lookup s k := by
  by_cases h : p.1 = k <;>
    simp [lookup, List.find?_cons_of_pos, List.find?_cons_of_neg, h]

theorem any_eq_false_of_lookup_none {s : Store} {k : String}
    (h : lookup s k = none) : s.any (fun p => p.1 = k) = false := by
  induction s with
  | nil => simp
  | cons p rest ih =>
    rw [lookup_cons] at h
    by_cases hp : p.1 = k
    · simp [hp] at h
    · rw [if_neg hp] at h
      simp only [List.any_cons, ih h, Bool.or_false]
      simpa using hp

theorem any_eq_true_of_lookup_some {s : Store} {k : String} {l : List String}
    (h : lookup s k = some l) : s.any (fun p => p.1 = k) = true := by
  induction s with
  | nil => simp [lookup, List.find?] at h
  | cons p rest ih =>
    rw [lookup_cons] at h
    by_cases hp : p.1 = k
    · simp [List.any_cons, hp]
    · rw [if_neg hp] at h
      simp [List.any_cons, ih h]

theorem lookup_append_right_new {s : Store} {k : String} {vs : List String}
    (h : lookup s k = none) : lookup (s ++ [(k, vs)]) k = some vs := by
  induction s with
  | nil => simp [lookup, List.find?]
  | cons p rest ih =>
    rw [lookup_cons] at h
    by_cases hp : p.1 = k
    · simp [hp] at h
    · rw [List.cons_append, lookup_cons, if_neg hp]
      exact ih (by simpa [hp] using h)

theorem lookup_storeExtend_self_none {s : Store} {k : String} (vs : List String)
    (h : lookup s k = none) : lookup (storeExtend s k vs) k = some vs := by
  rw [storeExtend, if_neg (by simp [any_eq_false_of_lookup_none h])]
  exact lookup_append_right_new h

theorem lookup_map_extendFn (s : Store) (k k' : String) (vs : List String) :
    lookup (List.map (fun p => if p.1 = k then (p.1, p.2 ++ vs) else p) s) k' =
      (if k' = k then (lookup s k').map (fun l => l ++ vs) else lookup s k') := by
  induction s with
  | nil => by_cases h : k' = k <;> simp [lookup, h]
  | cons p rest ih =>
    by_cases hp : p.1 = k
    · by_cases hk : k' = k
      · rw [List.map_cons, if_pos hp, lookup_cons, lookup_cons]
        simp only [hk, hp, if_pos rfl]
        simp
      · rw [List.map_cons, if_pos hp, lookup_cons, lookup_cons]
        have : p.1 ≠ k' := by rw [hp]; exact fun h => hk h.symm
        simp only [if_neg this]
        simpa [hk] using ih
    · by_cases hpk : p.1 = k'
      · rw [List.map_cons, if_neg hp, lookup_cons, lookup_cons, if_pos hpk, if_pos hpk]
        have hk : k' ≠ k := fun h => hp (hpk.trans h)
        simp [hk]
      · rw [List.map_cons, if_neg hp, lookup_cons, lookup_cons, if_neg hpk, if_neg hpk]
        exact ih

theorem lookup_storeExtend_self_some {s : Store} {k : String} {l : List String}
    (vs : List String) (h : lookup s k = some l) :
    lookup (storeExtend s k vs) k = some (l ++ vs) := by
  rw [storeExtend, if_pos (by simpa using any_eq_true_of_lookup_some h),
    lookup_map_extendFn, if_pos rfl, h]
  rfl

theorem lookup_append_single_other {k k' : String} (vs : List String) (h : k' ≠ k) :
    ∀ s : Store, lookup (s ++ [(k, vs)]) k' = lookup s k'
  | [] => by simp [lookup, List.find?, Ne.symm h]
  | p :: rest => by
    rw [List.cons_append, lookup_cons, lookup_cons, lookup_append_single_other vs h rest]

theorem lookup_storeExtend_other {s : Store} {k k' : String} (vs : List String)
    (h : k' ≠ k) : lookup (storeExtend s k vs) k' = lookup s k' := by
  rw [storeExtend]
  by_cases ha : s.any (fun p => p.1 = k)
  · rw [if_pos (by simpa using ha), lookup_map_extendFn, if_neg h]
  · rw [if_neg (by simpa using ha), lookup_append_single_other vs h]

/-- One store extends another when every entry is preserved up to
appending further paragraphs at its end. -/
def StoreExt (s s' : Store) : Prop :=
  ∀ k l, lookup s k = some l → ∃ m, lookup s' k = some (l ++ m)

theorem storeExt_refl (s : Store) : StoreExt s s :=
  fun _ l h => ⟨[], by rw [List.append_nil]; exact h⟩

theorem storeExt_trans {s₁ s₂ s₃ : Store}
    (h1 : StoreExt s₁ s₂) (h2 : StoreExt s₂ s₃) : StoreExt s₁ s₃ := by
  intro k l h
  obtain ⟨m, hm⟩ := h1 k l h
  obtain ⟨m', hm'⟩ := h2 k (l ++ m) hm
  exact ⟨m ++ m', by rw [← List.append_assoc]; exact hm'⟩

theorem storeExt_storeExtend (s : Store) (k : String) (vs : List String) :
    StoreExt s (storeExtend s k vs) := by
  intro k' l h
  by_cases hk : k' = k
  · subst hk
    exact ⟨vs, lookup_storeExtend_self_some vs h⟩
  · exact ⟨[], by rw [List.append_nil, lookup_storeExtend_other vs hk]; exact h⟩

theorem storeExt_ite {s s₁ s₂ : Store} (c : Prop) [Decidable c]
    (h1 : StoreExt s s₁) (h2 : StoreExt s s₂) :
    StoreExt s (if c then s₁ else s₂) := by
  split
  · exact h1
  · exact h2

theorem storeExt_foldl {f : Store → α → Store}
    (hf : ∀ st x, StoreExt st (f st x)) :
    ∀ (l : List α) (st : Store), StoreExt st (l.foldl f st)
  | [], st => storeExt_refl st
  | x :: rest, st => by
    rw [List.foldl_cons]
    exact storeExt_trans (hf st x) (storeExt_foldl hf rest (f st x))

/-! ### Traversal lemmas -/

theorem walkSec_eq (store : Store) (sec : Elem) :
    walkSec store sec =
      walkSecList
        (if (collect_level_paragraphs sec).isEmpty then store
         else storeExtend store (secTitle sec) (collect_level_paragraphs sec))
        sec.children := by
  cases sec with
  | mk tg tx ch tl =>
    rw [walkSec]
    rfl

mutual

theorem walkSec_ext (store : Store) : (sec : Elem) → StoreExt store (walkSec store sec)
  | .mk tg tx ch tl => by
    rw [walkSec_eq]
    exact storeExt_trans
      (storeExt_ite _ (storeExt_refl _) (storeExt_storeExtend _ _ _))
      (walkSecList_ext _ ch)

theorem walkSecList_ext (store : Store) : (l : List Elem) → StoreExt store (walkSecList store l)
  | [] => by rw [walkSecList]; exact storeExt_refl _
  | c :: rest => by
    rw [walkSecList]
    refine storeExt_trans ?_ (walkSecList_ext _ rest)
    split
    · exact walkSec_ext store c
    · exact storeExt_refl _

end

theorem parseBodyAux_ext (body : Elem) (store : Store) :
    StoreExt store (parseBodyAux body store) := by
  rw [parseBodyAux]
  exact storeExt_trans
    (storeExt_ite _ (storeExt_refl _) (storeExt_storeExtend _ _ _))
    (storeExt_foldl walkSec_ext _ _)

theorem parse_body_ext (article : Elem) (store : Store) :
    StoreExt store (parse_body_into_map article store) := by
  rw [parse_body_into_map]
  cases childFind article "body" with
  | none => exact storeExt_refl _
  | some body => exact parseBodyAux_ext body store

theorem storeExt_extendStep (st : Store) (c : Prop) [Decidable c]
    (k : String) (vs : List String) :
    StoreExt st (if c then st else storeExtend st k vs) := by
  split
  · exact storeExt_refl st
  · exact storeExt_storeExtend st k vs

theorem parseAbstractNode_ext (numNodes : Nat) (store : Store) (ie : Nat × Elem) :
    StoreExt store (parseAbstractNode numNodes store ie) := by
  simp only [parseAbstractNode]
  refine storeExt_trans ?_ (storeExt_foldl (fun st s => storeExt_extendStep _ _ _ _) _ _)
  exact storeExt_extendStep _ _ _ _

theorem parse_abstract_ext (article : Elem) (store : Store) :
    StoreExt store (parse_abstract_into_map article store) := by
  rw [parse_abstract_into_map]
  cases findPath article ["front", "article-meta"] with
  | none => exact storeExt_refl _
  | some meta =>
    simp only [parseAbstractMeta]
    split
    · exact storeExt_refl _
    · exact storeExt_foldl (parseAbstractNode_ext _) _ _

/-! ### Paragraph collection as a filterMap -/

theorem foldl_optAppend_eq (f : Elem → Option String) :
    ∀ (l : List Elem) (init : List String),
      l.foldl (fun out node => match f node with
        | none => out
        | some t => out ++ [t]) init = init ++ l.filterMap f
  | [], init => by simp
  | node :: rest, init => by
    rw [List.foldl_cons, List.filterMap_cons]
    cases h : f node with
    | none => simpa [h] using foldl_optAppend_eq f rest init
    | some t =>
      simp only [h]
      rw [foldl_optAppend_eq f rest (init ++ [t]), List.append_assoc]
      rfl

theorem collect_eq_filterMap (container : Elem) :
    collect_level_paragraphs container = container.children.filterMap pickPara := by
  rw [collect_level_paragraphs]
  have step : ∀ (out : List String) (node : Elem),
      (if tagIs node "title" || tagIs node "label" || tagIs node "sec" then out
       else if blockTags.any (fun t => tagIs node t) then
         (let t := pyStrip (txtElem node)
          if t = "" then out else out ++ [t])
       else
         (let t := pyStrip (txtElem node)
          if t = "" then out else out ++ [t])) =
      (match pickPara node with
       | none => out
       | some t => out ++ [t]) := by
    intro out node
    rw [pickPara]
    by_cases h1 : tagIs node "title" || tagIs node "label" || tagIs node "sec"
    · simp [h1]
    · simp only [if_neg h1]
      by_cases h2 : pyStrip (txtElem node) = "" <;>
        by_cases h3 : blockTags.any (fun t => tagIs node t) <;>
          simp [h2, h3]
  simp only [step]
  simpa using foldl_optAppend_eq pickPara container.children []

/-! ### Whitespace-normalization lemmas -/

theorem toList_append (a b : String) : (a ++ b).toList = a.toList ++ b.toList := rfl

theorem concatMap_append (f : α → List β) :
    ∀ a b : List α, concatMap f (a ++ b) = concatMap f a ++ concatMap f b
  | [], b => rfl
  | x :: rest, b => by
    rw [List.cons_append, concatMap, concatMap, concatMap_append f rest b,
      List.append_assoc]

theorem splitWsAux_append_space :
    ∀ (a b acc : List Char),
      splitWsAux (a ++ ' ' :: b) acc = splitWsAux a acc ++ splitWsAux b []
  | [], b, acc => by
    rw [List.nil_append, splitWsAux, splitWsAux]
    by_cases h : acc.isEmpty <;> simp [h, isPySpace]
  | c :: rest, b, acc => by
    rw [List.cons_append, splitWsAux, splitWsAux]
    by_cases hc : isPySpace c
    · rw [if_pos hc, if_pos hc]
      by_cases h : acc.isEmpty
      · rw [if_pos h, if_pos h, splitWsAux_append_space rest b []]
      · rw [if_neg h, if_neg h, splitWsAux_append_space rest b [], List.cons_append]
    · rw [if_neg hc, if_neg hc, splitWsAux_append_space rest b (c :: acc)]

theorem pySplitWs_joinSpace :
    ∀ L : List String, pySplitWs (joinSpace L) = concatMap pySplitWs L
  | [] => by rw [joinSpace, concatMap]; rfl
  | [s] => by rw [joinSpace, concatMap, concatMap, List.append_nil]
  | s :: s' :: rest => by
    have hj : joinSpace (s :: s' :: rest) = s ++ " " ++ joinSpace (s' :: rest) := rfl
    have ht : (s ++ " " ++ joinSpace (s' :: rest)).toList
        = s.toList ++ ' ' :: (joinSpace (s' :: rest)).toList := by
      rw [toList_append, toList_append, List.append_assoc]
      rfl
    rw [concatMap, ← pySplitWs_joinSpace (s' :: rest)]
    rw [pySplitWs, hj, ht, splitWsAux_append_space, List.map_append]
    rfl

theorem splitWsAux_all_space :
    ∀ cs : List Char, (∀ c ∈ cs, isPySpace c = true) →
      ∀ acc, splitWsAux cs acc = if acc.isEmpty then [] else [acc.reverse]
  | [], _, acc => by rw [splitWsAux]
  | c :: rest, h, acc => by
    have hc : isPySpace c = true := h c (List.mem_cons_self c rest)
    have hrest : ∀ c ∈ rest, isPySpace c = true :=
      fun x hx => h x (List.mem_cons_of_mem c hx)
    rw [splitWsAux, if_pos hc]
    by_cases ha : acc.isEmpty
    · rw [if_pos ha, if_pos ha, splitWsAux_all_space rest hrest []]
      rfl
    · rw [if_neg ha, if_neg ha, splitWsAux_all_space rest hrest []]
      rfl

theorem pySplitWs_all_space {s : String}
    (h : ∀ c ∈ s.toList, isPySpace c = true) : pySplitWs s = [] := by
  rw [pySplitWs, splitWsAux_all_space s.toList h []]
  rfl

/-- Whitespace-only optional text: absent, or made of whitespace only. -/
def wsOnlyOpt : Option String → Prop
  | none => True
  | some t => ∀ c ∈ t.toList, isPySpace c = true

theorem concatMap_pySplitWs_optPart {o : Option String} (h : wsOnlyOpt o) :
    concatMap pySplitWs (optPart o) = [] := by
  cases o with
  | none => rfl
  | some t =>
    rw [optPart]
    by_cases ht : t = ""
    · rw [if_pos ht]; rfl
    · rw [if_neg ht, concatMap, concatMap, List.append_nil]
      exact pySplitWs_all_space h

theorem txtElem_eq_joinSpace_concatMap (el : Elem) :
    txtElem el = joinSpace (concatMap pySplitWs (txtParts el)) := by
  rw [txtElem, normalizeWs, pySplitWs_joinSpace]

/-! ### Assembler unfolding -/

theorem jatsFromTree_none {root : Elem} (h : firstArticle root = none) :
    jatsFromTree root = [] := by
  simp only [jatsFromTree, h]

theorem jatsFromTree_some {root article : Elem} (h : firstArticle root = some article) :
    jatsFromTree root =
      parse_body_into_map article (parse_abstract_into_map article
        (if txt (titleElOf article) = "" then []
         else storeSet [] "Title" [txt (titleElOf article)])) := by
  simp only [jatsFromTree, h]

/-! ### Claims -/

/-- Claim C1: on the spec's end-to-end example document, the extractor
returns exactly the map with keys Title, Abstract, Intro, Sub in that
insertion order, each bound to its single flattened paragraph. -/
theorem C1_end_to_end_example :
    jats_to_section_paragraph_map "<article><front><article-meta><title-group><article-title>Foo</article-title></title-group><abstract><p>Bar.</p></abstract></article-meta></front><body><sec><title>Intro</title><p>Hello world.</p><sec><title>Sub</title><p>Nested text.</p></sec></sec></body></article>"
      = Except.ok [("Title", ["Foo"]), ("Abstract", ["Bar."]),
                   ("Intro", ["Hello world."]), ("Sub", ["Nested text."])] := rfl

/-- Claim C2 counterexample: a document whose article title is "Foo" and
whose body has a section titled "Title" with paragraph "X" yields a
"Title" entry with two elements, so the "Title" key does not always hold
exactly one entry. -/
theorem C2_title_two_entries_cex :
    jats_to_section_paragraph_map "<article><front><article-meta><title-group><article-title>Foo</article-title></title-group></article-meta></front><body><sec><title>Title</title><p>X</p></sec></body></article>"
      = Except.ok [("Title", ["Foo", "X"])] ∧ ["Foo", "X"].length ≠ 1 :=
  ⟨rfl, by decide⟩

/-- Claim C2 (amended): when the flattened article title is non-empty the
returned map has a "Title" key whose list starts with the article title;
body or abstract sections whose derived key is also "Title" append
further entries after it rather than replacing it. -/
theorem C2_title_first_entry (raw : String) (tree article : Elem)
    (h1 : fromstring raw = Except.ok tree)
    (h2 : firstArticle tree = some article)
    (h3 : ¬ txt (titleElOf article) = "") :
    ∃ m rest, jats_to_section_paragraph_map raw = Except.ok m ∧
      lookup m "Title" = some (txt (titleElOf article) :: rest) := by
  have hbase : lookup (storeSet [] "Title" [txt (titleElOf article)]) "Title"
      = some [txt (titleElOf article)] := by
    rw [storeSet]
    simp [lookup, List.find?]
  have hext : StoreExt (storeSet [] "Title" [txt (titleElOf article)]) (jatsFromTree tree) := by
    rw [jatsFromTree_some h2, if_neg h3]
    exact storeExt_trans (parse_abstract_ext _ _) (parse_body_ext _ _)
  obtain ⟨m', hm'⟩ := hext "Title" _ hbase
  refine ⟨jatsFromTree tree, m', ?_, ?_⟩
  · rw [jats_to_section_paragraph_map, h1]
    rfl
  · simpa using hm'

/-- Claim C2 witness: a concrete document with article title "Foo" whose
returned map holds "Foo" first under the "Title" key. -/
theorem C2_title_first_entry_witness :
    ∃ m rest,
      jats_to_section_paragraph_map "<article><front><article-meta><title-group><article-title>Foo</article-title></title-group></article-meta></front></article>"
        = Except.ok m ∧
      lookup m "Title" = some
        (txt (titleElOf (Elem.mk "article" none
          [Elem.mk "front" none
            [Elem.mk "article-meta" none
              [Elem.mk "title-group" none
                [Elem.mk "article-title" (some "Foo") [] none] none] none] none] none)) :: rest) :=
  C2_title_first_entry _ _ _ rfl rfl (by decide)

/-- Claim C4: whenever parsing the raw string fails, the extractor
propagates exactly that parse error and yields no map; whenever parsing
succeeds, the extractor always returns a map without any error. -/
theorem C4_parse_error_propagation (raw : String) :
    (∀ e, fromstring raw = Except.error e →
        jats_to_section_paragraph_map raw = Except.error e) ∧
    (∀ tree, fromstring raw = Except.ok tree →
        jats_to_section_paragraph_map raw = Except.ok (jatsFromTree tree)) := by
  constructor
  · intro e h
    rw [jats_to_section_paragraph_map, h]
    rfl
  · intro tree h
    rw [jats_to_section_paragraph_map, h]
    rfl

/-- Claim C4 witness: a truncated document surfaces a parse error, and a
well-formed one returns a map. -/
theorem C4_parse_error_propagation_witness :
    jats_to_section_paragraph_map "<article><p>"
        = Except.error "ParseError: malformed XML" ∧
    jats_to_section_paragraph_map "<a>hi</a>"
        = Except.ok (jatsFromTree (Elem.mk "a" (some "hi") [] none)) :=
  ⟨(C4_parse_error_propagation _).1 _ rfl, (C4_parse_error_propagation _).2 _ rfl⟩

/-- Claim C8: flattening is idempotent under wrapping — a wrapper whose
only child is `n` and whose own text and the child's tail are absent or
whitespace-only flattens to the same normalized string as `n`; and a
null/absent node flattens to the empty string. -/
theorem C8_txt_wrapping_idempotent (n w : Elem)
    (hc : w.children = [n]) (ht : wsOnlyOpt w.text) (htl : wsOnlyOpt n.tail) :
    txt (some w) = txt (some n) ∧ txt none = "" := by
  constructor
  · show txtElem w = txtElem n
    rw [txtElem_eq_joinSpace_concatMap, txtElem_eq_joinSpace_concatMap]
    congr 1
    cases w with
    | mk tg tx ch tl =>
      have hch : ch = [n] := hc
      subst hch
      have htx : wsOnlyOpt tx := ht
      rw [txtParts, txtPartsList, txtPartsList, concatMap_append, concatMap_append,
        concatMap_append, concatMap_pySplitWs_optPart htx,
        concatMap_pySplitWs_optPart htl]
      simp [concatMap]
  · rfl

/-- Claim C8 witness: a wrapper with whitespace-only own text around a
paragraph with whitespace tail flattens to the paragraph's own string. -/
theorem C8_txt_wrapping_idempotent_witness :
    txt (some (Elem.mk "wrap" (some "  ")
        [Elem.mk "p" (some "Hello world") [] (some " ")] none))
      = txt (some (Elem.mk "p" (some "Hello world") [] (some " "))) ∧
    txt none = "" :=
  C8_txt_wrapping_idempotent _ _ rfl
    (by simp only [Elem.text, wsOnlyOpt]; decide)
    (by simp only [Elem.tail, wsOnlyOpt]; decide)

/-! ### List helpers -/

theorem find?_append_cases (p : α → Bool) :
    ∀ l₁ l₂ : List α, (l₁ ++ l₂).find? p =
      (match l₁.find? p with
       | some x => some x
       | none => l₂.find? p)
  | [], l₂ => by simp
  | x :: rest, l₂ => by
    by_cases h : p x
    · rw [List.cons_append, List.find?_cons_of_pos _ h, List.find?_cons_of_pos _ h]
    · rw [List.cons_append, List.find?_cons_of_neg _ h, List.find?_cons_of_neg _ h,
        find?_append_cases p rest l₂]

theorem find?_mid_congr {p : α → Bool} {x y : α}
    (hx : p x = false) (hy : p y = false) (l₁ l₂ : List α) :
    (l₁ ++ x :: l₂).find? p = (l₁ ++ y :: l₂).find? p := by
  rw [find?_append_cases, find?_append_cases,
    List.find?_cons_of_neg _ (by simp [hx]), List.find?_cons_of_neg _ (by simp [hy])]

theorem find?_mid_drop {p : α → Bool} {x : α}
    (hx : p x = false) (l₁ l₂ : List α) :
    (l₁ ++ x :: l₂).find? p = (l₁ ++ l₂).find? p := by
  rw [find?_append_cases, find?_append_cases,
    List.find?_cons_of_neg _ (by simp [hx])]

theorem filterMap_mid_congr {f : α → Option β} {x y : α}
    (hx : f x = none) (hy : f y = none) (l₁ l₂ : List α) :
    (l₁ ++ x :: l₂).filterMap f = (l₁ ++ y :: l₂).filterMap f := by
  rw [List.filterMap_append, List.filterMap_append,
    List.filterMap_cons, List.filterMap_cons, hx, hy]

theorem filterMap_mid_drop {f : α → Option β} {x : α}
    (hx : f x = none) (l₁ l₂ : List α) :
    (l₁ ++ x :: l₂).filterMap f = (l₁ ++ l₂).filterMap f := by
  rw [List.filterMap_append, List.filterMap_append,
    List.filterMap_cons, hx]

theorem filterMap_filter_of_none {f : α → Option β} {q : α → Bool}
    (h : ∀ x, q x = false → f x = none) :
    ∀ l : List α, (l.filter q).filterMap f = l.filterMap f
  | [] => rfl
  | x :: rest => by
    rw [List.filter_cons, List.filterMap_cons]
    by_cases hq : q x
    · rw [if_pos hq, List.filterMap_cons, filterMap_filter_of_none h rest]
    · rw [if_neg hq, h x (by simpa using hq), filterMap_filter_of_none h rest]

theorem pyEnumFrom_append (n : Nat) :
    ∀ a b : List α, pyEnumFrom n (a ++ b) = pyEnumFrom n a ++ pyEnumFrom (n + a.length) b
  | [], b => by simp [pyEnumFrom]
  | x :: rest, b => by
    rw [List.cons_append, pyEnumFrom, pyEnumFrom, pyEnumFrom_append (n + 1) rest b,
      List.cons_append, List.length_cons]
    have hn : n + 1 + rest.length = n + (rest.length + 1) := by omega
    rw [hn]

theorem foldl_congr_mid {f : β → α → β} {x y : α}
    (h : ∀ st, f st x = f st y) (l₁ l₂ : List α) (init : β) :
    (l₁ ++ x :: l₂).foldl f init = (l₁ ++ y :: l₂).foldl f init := by
  rw [List.foldl_append, List.foldl_append, List.foldl_cons, List.foldl_cons, h]

/-! ### Tag-suffix facts -/

theorem isPrefixOf_self [BEq α] [LawfulBEq α] : ∀ l : List α, l.isPrefixOf l = true
  | [] => rfl
  | x :: rest => by
    rw [List.isPrefixOf]
    simp [isPrefixOf_self rest]

theorem pyEndsWith_refl (t : String) : pyEndsWith t t = true := by
  rw [pyEndsWith, List.isSuffixOf]
  exact isPrefixOf_self _

theorem tag_ne_of_tagIs_false {x : Elem} {t : String}
    (h : tagIs x t = false) : x.tag ≠ t := by
  intro he
  rw [tagIs, he, pyEndsWith_refl] at h
  exact Bool.false_ne_true h.symm

theorem ne_title_of_endsWith_sec {a : String}
    (h : pyEndsWith a "sec" = true) : a ≠ "title" := by
  intro he
  rw [he] at h
  exact absurd h (by decide)

theorem tagIs_sec_tag_ne_title {x : Elem}
    (h : tagIs x "sec" = true) : x.tag ≠ "title" :=
  ne_title_of_endsWith_sec (by rw [tagIs] at h; exact h)

theorem pickPara_none_of_sec {x : Elem} (h : tagIs x "sec" = true) :
    pickPara x = none := by
  rw [pickPara, if_pos (by simp [h])]

/-! ### Walker helper lemmas -/

theorem walkSecList_noSec (store : Store) :
    ∀ l : List Elem, (∀ c ∈ l, tagIs c "sec" = false) → walkSecList store l = store
  | [], _ => by rw [walkSecList]
  | c :: rest, h => by
    rw [walkSecList, if_neg (by simp [h c (List.mem_cons_self c rest)])]
    exact walkSecList_noSec store rest (fun x hx => h x (List.mem_cons_of_mem c hx))

theorem prefaceScan_stop {s : Elem} (hs : tagIs s "sec" = true) :
    ∀ (xs rest rest' : List Elem),
      prefaceScan (xs ++ s :: rest) = prefaceScan (xs ++ s :: rest')
  | [], rest, rest' => by
    rw [List.nil_append, List.nil_append, prefaceScan, prefaceScan, if_pos hs, if_pos hs]
  | x :: xs, rest, rest' => by
    rw [List.cons_append, List.cons_append, prefaceScan, prefaceScan]
    by_cases h1 : tagIs x "sec"
    · rw [if_pos h1, if_pos h1]
    · rw [if_neg h1, if_neg h1]
      by_cases h2 : tagIs x "title"
      · rw [if_pos h2, if_pos h2, prefaceScan_stop hs xs rest rest']
      · rw [if_neg h2, if_neg h2]
        by_cases h3 : pyStrip (txtElem x) = "" <;>
          simp only [h3, if_pos, if_neg, ite_true, ite_false, reduceIte,
            prefaceScan_stop hs xs rest rest']

/-! ### Entry-count lemmas -/

theorem countKey_append (s s' : Store) (k : String) :
    countKey (s ++ s') k = countKey s k + countKey s' k := by
  simp [countKey, List.filter_append]

theorem countKey_zero_of_lookup_none {s : Store} {k : String}
    (h : lookup s k = none) : countKey s k = 0 := by
  induction s with
  | nil => rfl
  | cons p rest ih =>
    rw [lookup_cons] at h
    by_cases hp : p.1 = k
    · simp [hp] at h
    · rw [if_neg hp] at h
      rw [countKey, List.filter_cons, if_neg (by simpa using hp)]
      exact ih h

theorem countKey_map_extendFn (s : Store) (k k' : String) (vs : List String) :
    countKey (List.map (fun p => if p.1 = k then (p.1, p.2 ++ vs) else p) s) k'
      = countKey s k' := by
  induction s with
  | nil => rfl
  | cons p rest ih =>
    have hfst : ((if p.1 = k then (p.1, p.2 ++ vs) else p) : String × List String).1 = p.1 := by
      by_cases hp : p.1 = k <;> simp [hp]
    rw [List.map_cons, countKey, countKey, List.filter_cons, List.filter_cons, hfst]
    have ih' := ih
    rw [countKey, countKey] at ih'
    by_cases hp : p.1 = k'
    · simp [hp, ih']
    · simp [hp, ih']

theorem countKey_storeExtend_new {s : Store} {k : String} (vs : List String)
    (h : lookup s k = none) : countKey (storeExtend s k vs) k = 1 := by
  rw [storeExtend, if_neg (by simp [any_eq_false_of_lookup_none h]), countKey_append,
    countKey_zero_of_lookup_none h]
  simp [countKey, List.filter_cons]

theorem countKey_storeExtend_existing {s : Store} {k : String} {l : List String}
    (vs : List String) (h : lookup s k = some l) :
    countKey (storeExtend s k vs) k = countKey s k := by
  rw [storeExtend, if_pos (by simpa using any_eq_true_of_lookup_some h),
    countKey_map_extendFn]

mutual

theorem findDescElem_spec (t : String) :
    ∀ e : Elem, findDescElem t e = (preorder e).find? (fun x => x.tag = t)
  | .mk tg tx ch tl => by
    rw [findDescElem, preorder]
    by_cases h : tg = t
    · rw [if_pos h, List.find?_cons_of_pos _ (by simp [Elem.tag, h])]
    · rw [if_neg h, List.find?_cons_of_neg _ (by simp [Elem.tag, h]),
        findDescList_spec t ch]

theorem findDescList_spec (t : String) :
    ∀ l : List Elem, findDescList t l = (preorderList l).find? (fun x => x.tag = t)
  | [] => by rw [findDescList, preorderList]; rfl
  | c :: rest => by
    rw [findDescList, preorderList, find?_append_cases, ← findDescElem_spec t c,
      ← findDescList_spec t rest]
    cases findDescElem t c <;> rfl

end

/-- Claim C3: paragraph collection never takes content from a child
classified Title, Label or NestedSection — every collected paragraph is
the flattened text of a direct non-title, non-label, non-section child,
and erasing all such skipped children leaves the collection unchanged, so
nested-section content never leaks into the parent's paragraph list. -/
theorem C3_collect_skips_nested (container : Elem) (p : String) :
    (p ∈ collect_level_paragraphs container →
      ∃ n, n ∈ container.children ∧ tagIs n "title" = false ∧
        tagIs n "label" = false ∧ tagIs n "sec" = false ∧
        p = pyStrip (txtElem n)) ∧
    (∀ (tg : String) (tx tl : Option String) (children : List Elem),
      collect_level_paragraphs (Elem.mk tg tx children tl) =
        collect_level_paragraphs (Elem.mk tg tx
          (children.filter (fun n =>
            !(tagIs n "title" || tagIs n "label" || tagIs n "sec"))) tl)) := by
  constructor
  · intro hp
    rw [collect_eq_filterMap] at hp
    obtain ⟨n, hn, hpick⟩ := List.mem_filterMap.mp hp
    rw [pickPara] at hpick
    by_cases hskip : tagIs n "title" || tagIs n "label" || tagIs n "sec"
    · rw [if_pos hskip] at hpick
      exact absurd hpick (by simp)
    · rw [if_neg hskip] at hpick
      simp only [Bool.or_eq_true, not_or, Bool.not_eq_true] at hskip
      refine ⟨n, hn, hskip.1.1, hskip.1.2, hskip.2, ?_⟩
      by_cases ht : pyStrip (txtElem n) = ""
      · rw [if_pos ht] at hpick
        exact absurd hpick (by simp)
      · rw [if_neg ht] at hpick
        exact (Option.some_injective _ hpick).symm
  · intro tg tx tl children
    rw [collect_eq_filterMap, collect_eq_filterMap]
    show children.filterMap pickPara =
      (children.filter (fun n =>
        !(tagIs n "title" || tagIs n "label" || tagIs n "sec"))).filterMap pickPara
    refine (filterMap_filter_of_none ?_ children).symm
    intro x hx
    cases hcond : (tagIs x "title" || tagIs x "label" || tagIs x "sec") with
    | false => rw [hcond] at hx; simp at hx
    | true => rw [pickPara, if_pos hcond]

/-- Claim C3 witness: a section whose children are a paragraph and a
nested section yields only the paragraph, and erasing the nested section
changes nothing. -/
theorem C3_collect_skips_nested_witness :
    (∃ n, n ∈ (Elem.mk "sec" none
        [Elem.mk "p" (some "A") [] none,
         Elem.mk "sec" (some "nested text") [] none] none).children ∧
      tagIs n "title" = false ∧ tagIs n "label" = false ∧ tagIs n "sec" = false ∧
      "A" = pyStrip (txtElem n)) ∧
    (collect_level_paragraphs (Elem.mk "s" none
        [Elem.mk "p" (some "A") [] none,
         Elem.mk "sec" (some "nested text") [] none] none) =
      collect_level_paragraphs (Elem.mk "s" none
        ([Elem.mk "p" (some "A") [] none,
          Elem.mk "sec" (some "nested text") [] none].filter (fun n =>
            !(tagIs n "title" || tagIs n "label" || tagIs n "sec"))) none)) :=
  ⟨(C3_collect_skips_nested (Elem.mk "sec" none
      [Elem.mk "p" (some "A") [] none,
       Elem.mk "sec" (some "nested text") [] none] none) "A").1 (by decide),
   (C3_collect_skips_nested (Elem.mk "x" none [] none) "").2 "s" none none _⟩

/-- Claim C6: a root whose tag ends with "article" is used itself;
otherwise the first descendant tagged "article" in document (preorder)
order is used; and a well-formed document with no article element at all
yields an empty map with no error. -/
theorem C6_article_location (t : Elem) (raw : String) (tree : Elem) :
    (tagIs t "article" = true → firstArticle t = some t) ∧
    (tagIs t "article" = false →
      firstArticle t = (preorderList t.children).find? (fun e => e.tag = "article")) ∧
    (fromstring raw = Except.ok tree → firstArticle tree = none →
      jats_to_section_paragraph_map raw = Except.ok []) := by
  refine ⟨fun h => ?_, fun h => ?_, fun h1 h2 => ?_⟩
  · rw [firstArticle, if_pos h]
  · rw [firstArticle, if_neg (by simp [h]), findDescList_spec]
  · rw [jats_to_section_paragraph_map, h1]
    show Except.ok (jatsFromTree tree) = Except.ok []
    rw [jatsFromTree_none h2]

/-- Claim C6 witness: an article root is used itself; a non-article root
uses its first descendant article in document order; a document without
any article yields the empty map. -/
theorem C6_article_location_witness :
    firstArticle (Elem.mk "article" none [] none)
        = some (Elem.mk "article" none [] none) ∧
    firstArticle (Elem.mk "root" none
        [Elem.mk "x" none [] none, Elem.mk "article" (some "hi") [] none] none)
      = (preorderList (Elem.mk "root" none
          [Elem.mk "x" none [] none, Elem.mk "article" (some "hi") [] none] none).children).find?
          (fun e => e.tag = "article") ∧
    jats_to_section_paragraph_map "<root><x/></root>" = Except.ok [] :=
  ⟨(C6_article_location (Elem.mk "article" none [] none) "" (Elem.mk "r" none [] none)).1 rfl,
   (C6_article_location (Elem.mk "root" none
      [Elem.mk "x" none [] none, Elem.mk "article" (some "hi") [] none] none) ""
      (Elem.mk "r" none [] none)).2.1 rfl,
   (C6_article_location (Elem.mk "r" none [] none) "<root><x/></root>"
      (Elem.mk "root" none [Elem.mk "x" none [] none] none)).2.2 rfl rfl⟩

/-- Claim C7: two sibling body sections whose titles derive the same key,
holding paragraphs "A" and "B", merge into a single map entry for that
key whose list is exactly ["A", "B"] in visit order. -/
theorem C7_duplicate_sibling_titles (store : Store) (bt : String)
    (btx btl : Option String) (s1 s2 : Elem) (k : String)
    (h1 : s1.tag = "sec") (h2 : s2.tag = "sec")
    (ht1 : secTitle s1 = k) (ht2 : secTitle s2 = k)
    (hp1 : collect_level_paragraphs s1 = ["A"])
    (hp2 : collect_level_paragraphs s2 = ["B"])
    (hn1 : ∀ c ∈ s1.children, tagIs c "sec" = false)
    (hn2 : ∀ c ∈ s2.children, tagIs c "sec" = false)
    (hk : lookup store k = none) :
    lookup (parseBodyAux (Elem.mk bt btx [s1, s2] btl) store) k = some ["A", "B"] ∧
    countKey (parseBodyAux (Elem.mk bt btx [s1, s2] btl) store) k = 1 := by
  have hsec1 : tagIs s1 "sec" = true := by rw [tagIs, h1]; exact pyEndsWith_refl _
  have hsec2 : tagIs s2 "sec" = true := by rw [tagIs, h2]; exact pyEndsWith_refl _
  have hbody : parseBodyAux (Elem.mk bt btx [s1, s2] btl) store
      = walkSec (walkSec store s1) s2 := by
    rw [parseBodyAux]
    have hpre : prefaceScan (Elem.mk bt btx [s1, s2] btl).children = [] := by
      show prefaceScan [s1, s2] = []
      rw [prefaceScan, if_pos hsec1]
    rw [hpre, if_pos (by rfl)]
    have hsecs : childrenTagged (Elem.mk bt btx [s1, s2] btl) "sec" = [s1, s2] := by
      simp [childrenTagged, Elem.children, List.filter_cons, h1, h2]
    rw [hsecs]
    rfl
  have hw1 : walkSec store s1 = storeExtend store k ["A"] := by
    rw [walkSec_eq, hp1, ht1, if_neg (by simp)]
    exact walkSecList_noSec _ _ hn1
  have hw2 : walkSec (storeExtend store k ["A"]) s2
      = storeExtend (storeExtend store k ["A"]) k ["B"] := by
    rw [walkSec_eq, hp2, ht2, if_neg (by simp)]
    exact walkSecList_noSec _ _ hn2
  have hlook1 : lookup (storeExtend store k ["A"]) k = some ["A"] :=
    lookup_storeExtend_self_none _ hk
  rw [hbody, hw1, hw2]
  refine ⟨?_, ?_⟩
  · rw [lookup_storeExtend_self_some _ hlook1]
    rfl
  · rw [countKey_storeExtend_existing _ hlook1, countKey_storeExtend_new _ hk]

/-- Claim C7 witness: two concrete sibling sections titled "Methods" with
paragraphs "A" and "B" produce the single entry ["A", "B"]. -/
theorem C7_duplicate_sibling_titles_witness :
    lookup (parseBodyAux (Elem.mk "body" none
      [Elem.mk "sec" none
        [Elem.mk "title" (some "Methods") [] none, Elem.mk "p" (some "A") [] none] none,
       Elem.mk "sec" none
        [Elem.mk "title" (some "Methods") [] none, Elem.mk "p" (some "B") [] none] none]
      none) []) "Methods" = some ["A", "B"] ∧
    countKey (parseBodyAux (Elem.mk "body" none
      [Elem.mk "sec" none
        [Elem.mk "title" (some "Methods") [] none, Elem.mk "p" (some "A") [] none] none,
       Elem.mk "sec" none
        [Elem.mk "title" (some "Methods") [] none, Elem.mk "p" (some "B") [] none] none]
      none) []) "Methods" = 1 :=
  C7_duplicate_sibling_titles [] "body" none none _ _ "Methods"
    rfl rfl rfl rfl rfl rfl (by decide) (by decide) rfl

/-- Claim C5: abstract-like elements are processed as all abstract
children followed by all trans-abstract children, each with its 1-based
position in that combined list; a sole untitled abstract gets the key
"Abstract"; with several abstract-like elements, each key is the
element's own flattened title when non-empty, else "Abstract i". -/
theorem C5_abstract_key_assignment (meta el : Elem) (store : Store)
    (ps : List String) (i : Nat) :
    (parseAbstractMeta meta store =
      (if (childrenTagged meta "abstract" ++ childrenTagged meta "trans-abstract").isEmpty
       then store
       else (pyEnumFrom 1
          (childrenTagged meta "abstract" ++ childrenTagged meta "trans-abstract")).foldl
         (parseAbstractNode
           (childrenTagged meta "abstract" ++ childrenTagged meta "trans-abstract").length)
         store)) ∧
    (childrenTagged meta "abstract" ++ childrenTagged meta "trans-abstract" = [el] →
      txt (childFind el "title") = "" →
      collect_level_paragraphs el = ps →
      ps ≠ [] →
      lookup store "Abstract" = none →
      el.children.filter (fun c => tagIs c "sec") = [] →
      lookup (parseAbstractMeta meta store) "Abstract" = some ps) ∧
    (2 ≤ (childrenTagged meta "abstract" ++ childrenTagged meta "trans-abstract").length →
      abstractKey
          (childrenTagged meta "abstract" ++ childrenTagged meta "trans-abstract").length
          i el =
        (if txt (childFind el "title") = "" then "Abstract " ++ toString i
         else txt (childFind el "title"))) := by
  refine ⟨rfl, fun h1 h2 h3 h4 h5 h6 => ?_, fun hlen => ?_⟩
  · have hkey : abstractKey 1 1 el = "Abstract" := by
      rw [abstractKey, h2]
      simp
    have hmeta : parseAbstractMeta meta store = parseAbstractNode 1 store (1, el) := by
      simp only [parseAbstractMeta, h1]
      rfl
    rw [hmeta, parseAbstractNode]
    simp only [h6, List.foldl_nil]
    show lookup (if (collect_level_paragraphs el).isEmpty then store
      else storeExtend store (abstractKey 1 1 el) (collect_level_paragraphs el)) "Abstract"
      = some ps
    rw [h3, if_neg (by simp [List.isEmpty_iff, h4]), hkey]
    exact lookup_storeExtend_self_none _ h5
  · rw [abstractKey,
      if_neg (by simp only [Bool.and_eq_true, decide_eq_true_eq]
                 rintro ⟨hl, _⟩
                 omega)]

/-- Claim C5 witness: a sole untitled abstract with paragraph "Bar." is
stored under "Abstract", and with two abstract-like elements an untitled
one in position 2 gets key "Abstract 2". -/
theorem C5_abstract_key_assignment_witness :
    lookup (parseAbstractMeta (Elem.mk "article-meta" none
        [Elem.mk "abstract" none [Elem.mk "p" (some "Bar.") [] none] none] none) [])
        "Abstract" = some ["Bar."] ∧
    abstractKey
        (childrenTagged (Elem.mk "article-meta" none
          [Elem.mk "abstract" none [Elem.mk "p" (some "One") [] none] none,
           Elem.mk "abstract" none [Elem.mk "p" (some "Two") [] none] none] none) "abstract"
         ++ childrenTagged (Elem.mk "article-meta" none
          [Elem.mk "abstract" none [Elem.mk "p" (some "One") [] none] none,
           Elem.mk "abstract" none [Elem.mk "p" (some "Two") [] none] none] none)
            "trans-abstract").length
        2 (Elem.mk "abstract" none [Elem.mk "p" (some "Two") [] none] none) =
      (if txt (childFind (Elem.mk "abstract" none
            [Elem.mk "p" (some "Two") [] none] none) "title") = ""
       then "Abstract " ++ toString 2
       else txt (childFind (Elem.mk "abstract" none
            [Elem.mk "p" (some "Two") [] none] none) "title")) :=
  ⟨(C5_abstract_key_assignment (Elem.mk "article-meta" none
      [Elem.mk "abstract" none [Elem.mk "p" (some "Bar.") [] none] none] none)
      (Elem.mk "abstract" none [Elem.mk "p" (some "Bar.") [] none] none)
      [] ["Bar."] 0).2.1 rfl rfl rfl (by decide) rfl rfl,
   (C5_abstract_key_assignment (Elem.mk "article-meta" none
      [Elem.mk "abstract" none [Elem.mk "p" (some "One") [] none] none,
       Elem.mk "abstract" none [Elem.mk "p" (some "Two") [] none] none] none)
      (Elem.mk "abstract" none [Elem.mk "p" (some "Two") [] none] none)
      [] [] 2).2.2 (by decide)⟩

/-- Claim C9: a non-section, non-title block child of the body that
appears after the first section child contributes nothing — removing it
leaves the body walker's result unchanged, because the preface scan stops
at the first section and the section walk visits only section elements. -/
theorem C9_body_block_after_sec_dropped (store : Store) (bt : String)
    (btx btl : Option String) (xs ys zs : List Elem) (s blk : Elem)
    (hs : tagIs s "sec" = true) (hb1 : tagIs blk "sec" = false)
    (hb2 : tagIs blk "title" = false) :
    parseBodyAux (Elem.mk bt btx (xs ++ s :: (ys ++ blk :: zs)) btl) store =
      parseBodyAux (Elem.mk bt btx (xs ++ s :: (ys ++ zs)) btl) store := by
  have hbne : ¬ blk.tag = "sec" := tag_ne_of_tagIs_false hb1
  rw [parseBodyAux, parseBodyAux]
  have hpre : prefaceScan (Elem.mk bt btx (xs ++ s :: (ys ++ blk :: zs)) btl).children
      = prefaceScan (Elem.mk bt btx (xs ++ s :: (ys ++ zs)) btl).children := by
    show prefaceScan (xs ++ s :: (ys ++ blk :: zs)) = prefaceScan (xs ++ s :: (ys ++ zs))
    exact prefaceScan_stop hs xs _ _
  have hsecs : childrenTagged (Elem.mk bt btx (xs ++ s :: (ys ++ blk :: zs)) btl) "sec"
      = childrenTagged (Elem.mk bt btx (xs ++ s :: (ys ++ zs)) btl) "sec" := by
    show (xs ++ s :: (ys ++ blk :: zs)).filter (fun c => c.tag = "sec")
      = (xs ++ s :: (ys ++ zs)).filter (fun c => c.tag = "sec")
    simp [List.filter_append, List.filter_cons, hbne]
  rw [hpre, hsecs]

/-- Claim C9 witness: a paragraph block placed after the body's first
section is dropped — the result equals that of the body without it. -/
theorem C9_body_block_after_sec_dropped_witness :
    parseBodyAux (Elem.mk "body" none
        ([] ++ (Elem.mk "sec" none
            [Elem.mk "title" (some "Intro") [] none,
             Elem.mk "p" (some "In sec") [] none] none) ::
          ([] ++ (Elem.mk "p" (some "dropped") [] none) :: [])) none) [] =
      parseBodyAux (Elem.mk "body" none
        ([] ++ (Elem.mk "sec" none
            [Elem.mk "title" (some "Intro") [] none,
             Elem.mk "p" (some "In sec") [] none] none) :: ([] ++ [])) none) [] :=
  C9_body_block_after_sec_dropped [] "body" none none [] [] []
    (Elem.mk "sec" none
      [Elem.mk "title" (some "Intro") [] none,
       Elem.mk "p" (some "In sec") [] none] none)
    (Elem.mk "p" (some "dropped") [] none) (by decide) (by decide) (by decide)

/-! ### Abstract-walker congruence lemmas -/

theorem tagIs_mk_sec {st : String} (stx stl : Option String) (ch : List Elem)
    (hst : pyEndsWith st "sec" = true) :
    tagIs (Elem.mk st stx ch stl) "sec" = true := by
  rw [tagIs]
  exact hst

theorem parseAbstractNode_congr (numNodes i : Nat) (st0 : Store)
    (abTag st : String) (atx atl stx stl : Option String)
    (apre apost spre spost : List Elem) (ss : Elem)
    (hst : pyEndsWith st "sec" = true) (hss : tagIs ss "sec" = true) :
    parseAbstractNode numNodes st0
        (i, Elem.mk abTag atx
          (apre ++ (Elem.mk st stx (spre ++ ss :: spost) stl) :: apost) atl)
      = parseAbstractNode numNodes st0
        (i, Elem.mk abTag atx
          (apre ++ (Elem.mk st stx (spre ++ spost) stl) :: apost) atl) := by
  have hSne : decide ((Elem.mk st stx (spre ++ ss :: spost) stl).tag = "title") = false := by
    simp [Elem.tag, ne_title_of_endsWith_sec hst]
  have hSne' : decide ((Elem.mk st stx (spre ++ spost) stl).tag = "title") = false := by
    simp [Elem.tag, ne_title_of_endsWith_sec hst]
  have hfind : childFind (Elem.mk abTag atx
      (apre ++ (Elem.mk st stx (spre ++ ss :: spost) stl) :: apost) atl) "title"
      = childFind (Elem.mk abTag atx
      (apre ++ (Elem.mk st stx (spre ++ spost) stl) :: apost) atl) "title" := by
    show (apre ++ (Elem.mk st stx (spre ++ ss :: spost) stl) :: apost).find?
        (fun c => c.tag = "title")
      = (apre ++ (Elem.mk st stx (spre ++ spost) stl) :: apost).find?
        (fun c => c.tag = "title")
    refine find?_mid_congr ?_ ?_ apre apost
    · exact hSne
    · exact hSne'
  have hkey : abstractKey numNodes i (Elem.mk abTag atx
      (apre ++ (Elem.mk st stx (spre ++ ss :: spost) stl) :: apost) atl)
      = abstractKey numNodes i (Elem.mk abTag atx
      (apre ++ (Elem.mk st stx (spre ++ spost) stl) :: apost) atl) := by
    rw [abstractKey, abstractKey, hfind]
  have hpickS : pickPara (Elem.mk st stx (spre ++ ss :: spost) stl) = none :=
    pickPara_none_of_sec (tagIs_mk_sec _ _ _ hst)
  have hpickS' : pickPara (Elem.mk st stx (spre ++ spost) stl) = none :=
    pickPara_none_of_sec (tagIs_mk_sec _ _ _ hst)
  have hcollect : collect_level_paragraphs (Elem.mk abTag atx
      (apre ++ (Elem.mk st stx (spre ++ ss :: spost) stl) :: apost) atl)
      = collect_level_paragraphs (Elem.mk abTag atx
      (apre ++ (Elem.mk st stx (spre ++ spost) stl) :: apost) atl) := by
    rw [collect_eq_filterMap, collect_eq_filterMap]
    exact filterMap_mid_congr hpickS hpickS' apre apost
  have hsfind : childFind (Elem.mk st stx (spre ++ ss :: spost) stl) "title"
      = childFind (Elem.mk st stx (spre ++ spost) stl) "title" := by
    show (spre ++ ss :: spost).find? (fun c => c.tag = "title")
      = (spre ++ spost).find? (fun c => c.tag = "title")
    refine find?_mid_drop ?_ spre spost
    simp [tagIs_sec_tag_ne_title hss]
  have hscollect : collect_level_paragraphs (Elem.mk st stx (spre ++ ss :: spost) stl)
      = collect_level_paragraphs (Elem.mk st stx (spre ++ spost) stl) := by
    rw [collect_eq_filterMap, collect_eq_filterMap]
    show (spre ++ ss :: spost).filterMap pickPara = (spre ++ spost).filterMap pickPara
    exact filterMap_mid_drop (pickPara_none_of_sec hss) spre spost
  have hfl : (Elem.mk abTag atx
      (apre ++ (Elem.mk st stx (spre ++ ss :: spost) stl) :: apost) atl).children.filter
        (fun c => tagIs c "sec")
      = apre.filter (fun c => tagIs c "sec")
        ++ (Elem.mk st stx (spre ++ ss :: spost) stl)
          :: apost.filter (fun c => tagIs c "sec") := by
    show (apre ++ (Elem.mk st stx (spre ++ ss :: spost) stl) :: apost).filter _ = _
    rw [List.filter_append, List.filter_cons, if_pos (tagIs_mk_sec _ _ _ hst)]
  have hfl' : (Elem.mk abTag atx
      (apre ++ (Elem.mk st stx (spre ++ spost) stl) :: apost) atl).children.filter
        (fun c => tagIs c "sec")
      = apre.filter (fun c => tagIs c "sec")
        ++ (Elem.mk st stx (spre ++ spost) stl)
          :: apost.filter (fun c => tagIs c "sec") := by
    show (apre ++ (Elem.mk st stx (spre ++ spost) stl) :: apost).filter _ = _
    rw [List.filter_append, List.filter_cons, if_pos (tagIs_mk_sec _ _ _ hst)]
  simp only [parseAbstractNode]
  rw [hkey, hcollect, hfl, hfl']
  exact foldl_congr_mid (fun stAcc => by simp only [hsfind, hscollect]) _ _ _

/-- Claim C10: the abstract walker recurses exactly one level — a section
nested two levels deep inside an abstract (a section child of an
abstract's section child) is never visited: removing it leaves the
abstract walker's result unchanged, so it produces no entry of its own
and its text reaches no entry. -/
theorem C10_abstract_walker_one_level (store : Store) (mt st : String)
    (mtx mtl atx atl stx stl : Option String)
    (pre post apre apost spre spost : List Elem) (ss : Elem)
    (hst : pyEndsWith st "sec" = true) (hss : tagIs ss "sec" = true) :
    parseAbstractMeta (Elem.mk mt mtx
      (pre ++ (Elem.mk "abstract" atx
        (apre ++ (Elem.mk st stx (spre ++ ss :: spost) stl) :: apost) atl) :: post)
      mtl) store
    = parseAbstractMeta (Elem.mk mt mtx
      (pre ++ (Elem.mk "abstract" atx
        (apre ++ (Elem.mk st stx (spre ++ spost) stl) :: apost) atl) :: post)
      mtl) store := by
  have habs : ∀ ach : List Elem,
      (pre ++ (Elem.mk "abstract" atx ach atl) :: post).filter
          (fun c => c.tag = "abstract")
        = pre.filter (fun c => c.tag = "abstract")
          ++ (Elem.mk "abstract" atx ach atl)
            :: post.filter (fun c => c.tag = "abstract") := by
    intro ach
    rw [List.filter_append, List.filter_cons, if_pos (by simp [Elem.tag])]
  have htrans : ∀ ach : List Elem,
      (pre ++ (Elem.mk "abstract" atx ach atl) :: post).filter
          (fun c => c.tag = "trans-abstract")
        = pre.filter (fun c => c.tag = "trans-abstract")
          ++ post.filter (fun c => c.tag = "trans-abstract") := by
    intro ach
    rw [List.filter_append, List.filter_cons, if_neg (by simp [Elem.tag])]
  simp only [parseAbstractMeta, childrenTagged, Elem.children, habs, htrans]
  rw [List.append_assoc, List.append_assoc, List.cons_append, List.cons_append]
  have hlen : ∀ ach ach' : List Elem,
      (pre.filter (fun c => c.tag = "abstract")
        ++ (Elem.mk "abstract" atx ach atl)
          :: (post.filter (fun c => c.tag = "abstract")
            ++ (pre.filter (fun c => c.tag = "trans-abstract")
              ++ post.filter (fun c => c.tag = "trans-abstract")))).length
      = (pre.filter (fun c => c.tag = "abstract")
        ++ (Elem.mk "abstract" atx ach' atl)
          :: (post.filter (fun c => c.tag = "abstract")
            ++ (pre.filter (fun c => c.tag = "trans-abstract")
              ++ post.filter (fun c => c.tag = "trans-abstract")))).length := by
    intro ach ach'
    simp
  rw [if_neg (by simp), if_neg (by simp)]
  rw [hlen (apre ++ (Elem.mk st stx (spre ++ spost) stl) :: apost)
      (apre ++ (Elem.mk st stx (spre ++ ss :: spost) stl) :: apost)]
  rw [pyEnumFrom_append, pyEnumFrom_append, pyEnumFrom, pyEnumFrom]
  exact foldl_congr_mid
    (fun stAcc => parseAbstractNode_congr _ _ stAcc "abstract" st atx atl stx stl
      apre apost spre spost ss hst hss) _ _ _

/-- Claim C10 witness: deleting a section nested two levels inside a
concrete abstract leaves the abstract walker's result unchanged. -/
theorem C10_abstract_walker_one_level_witness :
    parseAbstractMeta (Elem.mk "article-meta" none
      ([] ++ (Elem.mk "abstract" none
        ([] ++ (Elem.mk "sec" none
          ([] ++ (Elem.mk "sec" (some "deep text") [] none) :: []) none) :: []) none)
        :: []) none) []
    = parseAbstractMeta (Elem.mk "article-meta" none
      ([] ++ (Elem.mk "abstract" none
        ([] ++ (Elem.mk "sec" none ([] ++ []) none) :: []) none) :: []) none) [] :=
  C10_abstract_walker_one_level [] "article-meta" "sec" none none none none none none
    [] [] [] [] [] [] (Elem.mk "sec" (some "deep text") [] none) (by decide) (by decide)
